import Mathlib

/-!
Shallow embedding of the chemical-equation balancer (ChemEqBalancer.py).

Python dictionaries (defaultdict / OrderedDict) are modelled as association
lists that preserve insertion order; Python exceptions are modelled with the
`Except` monad over the inductive `PyErr`; `get_stoic`'s blanket
`except Exception` handler is modelled by collapsing every `Except.error`
into `none`.  Character-consuming `while` loops are modelled as
fuel-indexed structural recursions where the fuel is the length of the
input, which strictly bounds the number of loop iterations (every
iteration consumes at least one character).
-/

namespace ChemBalancer

/-- A Python dict from element symbol to atom count, in insertion order. -/
abbrev Dict := List (String × Nat)

/-- Model of the `defaultdict[int]` update `d[k] += v`: bump an existing key in
place, otherwise append the key at the end (insertion order). -/
def addTo (d : Dict) (k : String) (v : Nat) : Dict :=
  if d.any (fun kv => kv.1 == k) then
    d.map (fun kv => if kv.1 = k then (kv.1, kv.2 + v) else kv)
  else d ++ [(k, v)]

/-- Model of the `)`-branch merge loop: add every entry of `inner`, scaled
by `mult`, into `outer` (lines 78-80 of the source). -/
def mergeScaled (outer inner : Dict) (mult : Nat) : Dict :=
  inner.foldl (fun acc kv => addTo acc kv.1 (kv.2 * mult)) outer

/-- Value of a digit run, as accumulated by `count * 10 + int(ch)`. -/
def digitsVal (l : List Char) : Nat :=
  l.foldl (fun a c => a * 10 + (c.toNat - 48)) 0

/-- Fuelled model of the scanning `while` loop of `atom_count_in_formula`
(lines 66-95): a stack of accumulators for parenthesised groups, a current
accumulator, digits after an element or a `)` read as a multiplier where a
zero (absent or literal `0`) multiplier falls back to 1, and every
unrecognised character silently skipped. -/
def countLoopF : Nat → List Char → List Dict → Dict → Dict
  | _, [], _, current => current
  | 0, _, _, current => current
  | fuel + 1, c :: rest, stack, current =>
    if c = '(' then countLoopF fuel rest (current :: stack) []
    else if c = ')' then
      let m := digitsVal (rest.takeWhile Char.isDigit)
      let rest' := rest.dropWhile Char.isDigit
      let mult := if m = 0 then 1 else m
      match stack with
      | [] => countLoopF fuel rest' [] current
      | top :: stk => countLoopF fuel rest' stk (mergeScaled top current mult)
    else if c.isUpper then
      let sym := String.mk (c :: rest.takeWhile Char.isLower)
      let rest1 := rest.dropWhile Char.isLower
      let n := digitsVal (rest1.takeWhile Char.isDigit)
      let rest2 := rest1.dropWhile Char.isDigit
      countLoopF fuel rest2 stack (addTo current sym (if n = 0 then 1 else n))
    else countLoopF fuel rest stack current

/-- The scanning loop of `atom_count_in_formula` on a whole character list. -/
def countLoop (l : List Char) (stack : List Dict) (current : Dict) : Dict :=
  countLoopF l.length l stack current

/-- Fuelled model of the element scan inside `validate_formula`
(lines 24-35): an uppercase letter starts an element symbol, a maximal run
of lowercase letters extends it, everything else is skipped. -/
def scanElementsF : Nat → List Char → List String
  | _, [] => []
  | 0, _ => []
  | fuel + 1, c :: rest =>
    if c.isUpper then
      String.mk (c :: rest.takeWhile Char.isLower) ::
        scanElementsF fuel (rest.dropWhile Char.isLower)
    else scanElementsF fuel rest

/-- Element scan of `validate_formula` on a whole character list. -/
def scanElements (l : List Char) : List String := scanElementsF l.length l

/-- The suggested correction of `validate_formula` (lines 39-42): replace
every `0` by `O` when a `0` occurs, then every `1` by `I` when a `1`
occurs in the original formula. -/
def suggestedOf (l : List Char) : List Char :=
  if '1' ∈ l then
    (if '0' ∈ l then l.map (fun c => if c = '0' then 'O' else c) else l).map
      (fun c => if c = '1' then 'I' else c)
  else if '0' ∈ l then l.map (fun c => if c = '0' then 'O' else c) else l

/-- The Python exceptions that the balancer can raise. -/
inductive PyErr where
  | indexError : PyErr
  | suspicious : String → String → PyErr
  | invalidEquation : PyErr
  | needParse : PyErr
deriving DecidableEq

deriving instance DecidableEq for Except

/-- Model of `validate_formula` (lines 19-45).  `formula[-1]` on the empty
string raises `IndexError`; a formula ending in a digit, containing a
letter before the last character and at least one scanned element, whose
digit-for-letter correction differs from it, raises the suspicious-formula
`ValueError` carrying the suggested correction. -/
def validate_formula (f : String) : Except PyErr Unit :=
  match f.toList.getLast? with
  | none => Except.error PyErr.indexError
  | some last =>
    if last.isDigit = true ∧ f.toList.dropLast.any Char.isAlpha = true then
      if scanElements f.toList ≠ [] ∧ last.isDigit = true then
        if suggestedOf f.toList ≠ f.toList then
          Except.error (PyErr.suspicious f (String.mk (suggestedOf f.toList)))
        else Except.ok ()
      else Except.ok ()
    else Except.ok ()

/-- Model of Python `str.split(sep)` for a one-character separator: keeps
empty chunks, `"".split(sep) = [""]`. -/
def splitChar (sep : Char) : List Char → List (List Char)
  | [] => [[]]
  | c :: rest =>
    if c = sep then [] :: splitChar sep rest
    else
      match splitChar sep rest with
      | [] => [[c]]
      | p :: ps => (c :: p) :: ps

/-- `atom_count_in_formula` on a formula containing no hydrate dot:
validate, then run the scanning loop (lines 47-96 without the dot branch). -/
def atom_count_plain (f : String) : Except PyErr Dict :=
  (validate_formula f).bind (fun _ => Except.ok (countLoop f.toList [] []))

/-- Model of `atom_count_in_formula` (lines 47-96): validate first, then
either sum the counts of the dot-separated parts (each part re-validated by
the recursive call, its parts containing no dot) or run the scanning loop. -/
def atom_count_in_formula (f : String) : Except PyErr Dict :=
  (validate_formula f).bind (fun _ =>
    if '·' ∈ f.toList then
      (splitChar '·' f.toList).foldlM
        (fun acc p =>
          (atom_count_plain (String.mk p)).map
            (fun pc => pc.foldl (fun a kv => addTo a kv.1 kv.2) acc))
        []
    else Except.ok (countLoop f.toList [] []))

/-- Model of Python `str.strip()`: drop whitespace from both ends. -/
def pyStrip (l : List Char) : List Char :=
  ((l.dropWhile Char.isWhitespace).reverse.dropWhile Char.isWhitespace).reverse

/-- Drop the trailing whitespace run (the leading `\s*` of a separator
match, which the regex consumes from the preceding chunk). -/
def rstripWs (l : List Char) : List Char :=
  (l.reverse.dropWhile Char.isWhitespace).reverse

/-- Find the leftmost occurrence of one of the separator tokens `->`, `→`,
`=`; return the characters before it and the characters after it. -/
def findTok2 : List Char → Option (List Char × List Char)
  | [] => none
  | c :: rest =>
    if c = '→' ∨ c = '=' then some ([], rest)
    else if c = '-' then
      match rest with
      | '>' :: rest' => some ([], rest')
      | _ => (findTok2 rest).map (fun pr => (c :: pr.1, pr.2))
    else (findTok2 rest).map (fun pr => (c :: pr.1, pr.2))

/-- Fuelled model of `re.split(r'\s*(?:->|→|=)\s*', text)`: split at each
leftmost separator token, the whitespace run before it assigned to the
match (stripped from the preceding chunk) and the whitespace after it
consumed before the next chunk.  Each iteration consumes at least the
separator token, so `l.length` bounds the number of splits. -/
def reSplitAux : Nat → List Char → List (List Char)
  | 0, l => [l]
  | fuel + 1, l =>
    match findTok2 l with
    | none => [l]
    | some (p, r) => rstripWs p :: reSplitAux fuel (r.dropWhile Char.isWhitespace)

/-- `re.split` on the separator pattern over a whole character list. -/
def reSplitSep (l : List Char) : List (List Char) := reSplitAux l.length l

/-- First-seen order of element symbols across all species counts
(`_get_atom_count`, lines 112-121). -/
def firstSeen (countsList : List Dict) : List String :=
  countsList.foldl
    (fun acc cnt => cnt.foldl (fun a kv => if kv.1 ∈ a then a else a ++ [kv.1]) acc)
    []

/-- Ordered-dict lookup with default. -/
def assocGetD {α : Type} (d : List (String × α)) (k : String) (v : α) : α :=
  match d.find? (fun kv => kv.1 == k) with
  | some kv => kv.2
  | none => v

/-- Ordered-dict assignment `m[k] = v`: overwrite in place, else append. -/
def setItem {α : Type} (m : List (String × α)) (k : String) (v : α) :
    List (String × α) :=
  if m.any (fun kv => kv.1 == k) then
    m.map (fun kv => if kv.1 = k then (k, v) else kv)
  else m ++ [(k, v)]

/-- One species dict of `_get_species_dicts` (lines 127-133): the species'
count for every element of the universe, missing elements filled with 0,
negated when the species is a product. -/
def signedRow (alls : List String) (cnt : Dict) (neg : Bool) : List (String × Int) :=
  alls.map (fun el =>
    (el, if neg then -(Int.ofNat (assocGetD cnt el 0)) else Int.ofNat (assocGetD cnt el 0)))

/-- The state of a `ChemEqParser` after `equation_parser` succeeded. -/
structure ParsedEq where
  reactants : List String
  products : List String
  chem_species : List String
  chem_species_counts : List Dict
  all_elements : List String
  parsed_chem_eq : List (String × List (String × Int))
deriving DecidableEq

/-- Model of `equation_parser` (lines 98-110) together with the
`_get_atom_count` / `_get_species_dicts` passes it runs: split on the
separator regex after stripping, raise the invalid-equation `ValueError`
unless exactly two parts result, split each side on `+` with per-species
stripping, count atoms of every species, and build the signed species
dicts keyed by species name (a duplicated species name overwrites the
earlier entry, as in the Python `OrderedDict`). -/
def parse_equation (eq : String) : Except PyErr ParsedEq :=
  let parts := reSplitSep (pyStrip eq.toList)
  if parts.length = 2 then
    let reactants := (splitChar '+' (parts.getD 0 [])).map (fun s => String.mk (pyStrip s))
    let products := (splitChar '+' (parts.getD 1 [])).map (fun s => String.mk (pyStrip s))
    let species := reactants ++ products
    (species.mapM atom_count_in_formula).map (fun counts =>
      let alls := firstSeen counts
      let nR := reactants.length
      let parsed := species.enum.foldl
        (fun acc ip =>
          setItem acc ip.2 (signedRow alls (counts.getD ip.1 []) (decide (nR ≤ ip.1))))
        []
      { reactants := reactants, products := products, chem_species := species,
        chem_species_counts := counts, all_elements := alls,
        parsed_chem_eq := parsed })
  else Except.error PyErr.invalidEquation

/-- The bundle returned by `get_matrix` (lines 136-153). -/
structure MatrixData where
  matrix : List (List Int)
  elements : List String
  species : List String
deriving DecidableEq

/-- Model of `get_matrix`: one row per element in first-seen order, one
column per species in equation order, entries looked up from the signed
species dicts. -/
def get_matrix (p : ParsedEq) : Except PyErr MatrixData :=
  if p.parsed_chem_eq = [] then Except.error PyErr.needParse
  else
    Except.ok
      { matrix := p.all_elements.map (fun el =>
          p.chem_species.map (fun sp =>
            assocGetD (assocGetD p.parsed_chem_eq sp []) el 0)),
        elements := p.all_elements,
        species := p.chem_species }

/-- The parsing part of `get_stoic`'s `try` block (lines 157-159). -/
def parse_pipeline (eq : String) : Except PyErr MatrixData :=
  (parse_equation eq).bind get_matrix

/-- Entry `m[i][j]` of a rational matrix given as a row list, 0 outside. -/
def entryQ (m : List (List ℚ)) (i j : Nat) : ℚ := (m.getD i []).getD j 0

/-- Subtract `k` times the pivot row from a row. -/
def subScaled (row prow : List ℚ) (k : ℚ) : List ℚ :=
  List.zipWith (fun a b => a - k * b) row prow

/-- First row at index ≥ `r` whose entry in column `c` is nonzero. -/
def findPivotRow (m : List (List ℚ)) (r c : Nat) : Option Nat :=
  ((List.range m.length).drop r).find? (fun i => decide (entryQ m i c ≠ 0))

/-- Swap two rows. -/
def swapRows (m : List (List ℚ)) (i j : Nat) : List (List ℚ) :=
  (m.set i (m.getD j [])).set j (m.getD i [])

/-- Eliminate column `c` from every row other than the pivot row `r`
(whose pivot entry is already 1). -/
def elimOthers (m : List (List ℚ)) (r c : Nat) : List (List ℚ) :=
  ((List.range m.length).zip m).map (fun jrow =>
    if jrow.1 = r then jrow.2
    else subScaled jrow.2 (m.getD r []) (entryQ m jrow.1 c))

/-- Gauss-Jordan sweep over the columns: for each column find a pivot at or
below the current pivot row, swap it up, scale it to 1, eliminate the
column from every other row, and record the pivot column.  This computes
the (unique) reduced row echelon form and its pivot columns, as
`sympy.Matrix.rref` does. -/
def rrefAux : List (List ℚ) → Nat → Nat → Nat → List (List ℚ) × List Nat
  | m, _, _, 0 => (m, [])
  | m, r, c, colsLeft + 1 =>
    match findPivotRow m r c with
    | none => rrefAux m r (c + 1) colsLeft
    | some p =>
      let m1 := swapRows m r p
      let m2 := m1.set r ((m1.getD r []).map (fun x => x / entryQ m1 r c))
      let m3 := elimOthers m2 r c
      let res := rrefAux m3 (r + 1) (c + 1) colsLeft
      (res.1, c :: res.2)

/-- Reduced row echelon form with pivot columns. -/
def rrefQ (m : List (List ℚ)) (ncols : Nat) : List (List ℚ) × List Nat :=
  rrefAux m 0 0 ncols

/-- Column count the way `sympy.Matrix(rows)` sees it: a matrix built from
an empty row list is 0 × 0. -/
def matCols (m : List (List ℚ)) : Nat :=
  match m with
  | [] => 0
  | r :: _ => r.length

/-- One null-space basis vector of `sympy.Matrix.nullspace`, for the free
column `f`: 1 at `f`, 0 at the other free columns, and
`-rref[pivotRow][free]` at each pivot column. -/
def nullBasisVec (R : List (List ℚ)) (pivots : List Nat) (nc f : Nat) : List ℚ :=
  (List.range nc).map (fun j =>
    if j = f then (1 : ℚ)
    else
      match pivots.findIdx? (fun p => p == j) with
      | some pr => -(entryQ R pr f)
      | none => 0)

/-- Model of `sympy.Matrix.nullspace` on the rational matrix: one basis
vector per free column, ordered by free column. -/
def nullspaceQ (m : List (List ℚ)) : List (List ℚ) :=
  (List.filter (fun j => decide (j ∉ (rrefQ m (matCols m)).2)) (List.range (matCols m))).map
    (nullBasisVec (rrefQ m (matCols m)).1 (rrefQ m (matCols m)).2 (matCols m))

/-- Model of `sympy.Matrix.nullspace` on the integer stoichiometry matrix
(sympy works over exact rationals). -/
def nullspaceOf (mInt : List (List Int)) : List (List ℚ) :=
  nullspaceQ (mInt.map (fun row => row.map (fun z => (z : ℚ))))

/-- The least common multiple of the denominators of a vector (lines
180-189; denominators of Lean rationals are positive, as sympy's are). -/
def lcmDens (v : List ℚ) : Nat := (v.map Rat.den).foldr Nat.lcm 1

/-- The check `coeff.is_integer and coeff > 0` of line 194. -/
def isPosInt (q : ℚ) : Bool := q.den == 1 && decide (0 < q.num)

/-- The `raw_coeffs` of line 191: the null-space vector scaled by the LCM
of its denominators. -/
def raw_coeffs (vec : List ℚ) : List ℚ :=
  vec.map (fun q => q * (lcmDens vec : ℚ))

/-- Model of the integer-recovery step of `get_stoic` (lines 178-204):
scale the null-space vector by the LCM of its denominators; if all entries
are positive integers take them; otherwise, if any entry is negative,
take absolute values and accept those when they are all positive
integers; otherwise fail. -/
def normalize_coeffs (vec : List ℚ) : Option (List Int) :=
  if (raw_coeffs vec).all isPosInt then some ((raw_coeffs vec).map Rat.num)
  else if (raw_coeffs vec).any (fun q => decide (q.num < 0)) then
    if ((raw_coeffs vec).map (fun q => |q|)).all isPosInt then
      some (((raw_coeffs vec).map (fun q => |q|)).map Rat.num)
    else none
  else none

/-- Model of `get_stoic` (lines 155-214, `show_work=False`): parse and
build the matrix, take the first null-space basis vector, recover integer
coefficients; an empty null space yields `None`, and the blanket
`except Exception` handler turns every raised error into `None`. -/
def get_stoic (eq : String) : Option (List Int) :=
  match parse_pipeline eq with
  | Except.error _ => none
  | Except.ok md =>
    match nullspaceOf md.matrix with
    | [] => none
    | vec :: _ => normalize_coeffs vec

/-- Fold of `Nat.gcd` over the absolute values of a coefficient list. -/
def gcdList (c : List Int) : Nat := c.foldr (fun x g => Nat.gcd x.natAbs g) 0

/-- Signed dot product of a matrix row with a coefficient vector. -/
def dotProd (r c : List Int) : Int :=
  ((r.zip c).map (fun p => p.1 * p.2)).foldl (fun a b => a + b) 0

/-- Whether a coefficient vector conserves every element of a matrix:
each row's dot product with the coefficients is zero. -/
def conservesAll (m : List (List Int)) (c : List Int) : Bool :=
  m.all (fun r => dotProd r c == 0)

/-- Whether an `Except` computation succeeded. -/
def isOkE {α : Type} : Except PyErr α → Bool
  | Except.ok _ => true
  | Except.error _ => false

/-- The errors `validate_formula` can raise: only the empty-formula
`IndexError` and the suspicious-formula `ValueError`. -/
theorem validate_err_classify (f : String) (e : PyErr)
    (h : validate_formula f = Except.error e) :
    e = PyErr.indexError ∨ ∃ a b, e = PyErr.suspicious a b := by
  unfold validate_formula at h
  split at h
  · exact Or.inl (Except.error.inj h).symm
  · split at h
    · split at h
      · split at h
        · exact Or.inr ⟨_, _, (Except.error.inj h).symm⟩
        · exact absurd h (by simp)
      · exact absurd h (by simp)
    · exact absurd h (by simp)

/-- The errors `atom_count_plain` can raise are those of
`validate_formula`. -/
theorem atom_count_plain_err_classify (f : String) (e : PyErr)
    (h : atom_count_plain f = Except.error e) :
    e = PyErr.indexError ∨ ∃ a b, e = PyErr.suspicious a b := by
  unfold atom_count_plain at h
  cases hv : validate_formula f with
  | error e' =>
    rw [hv] at h
    exact Except.error.inj h ▸ validate_err_classify f e' hv
  | ok u => rw [hv] at h; exact absurd h (by simp [Except.bind])

/-- The hydrate-part summation of `atom_count_in_formula` can only raise
the errors of `atom_count_plain`. -/
theorem foldl_atom_err_classify (parts : List (List Char)) :
    ∀ (acc : Dict) (e : PyErr),
      parts.foldlM
          (fun acc p =>
            (atom_count_plain (String.mk p)).map
              (fun pc => pc.foldl (fun a kv => addTo a kv.1 kv.2) acc))
          acc = Except.error e →
      e = PyErr.indexError ∨ ∃ a b, e = PyErr.suspicious a b := by
  induction parts with
  | nil => intro acc e h; exact absurd h (by simp [List.foldlM, pure, Except.pure])
  | cons p ps ih =>
    intro acc e h
    rw [List.foldlM_cons] at h
    cases hp : atom_count_plain (String.mk p) with
    | error e' =>
      rw [hp] at h
      simp only [Except.map, Except.bind, bind] at h
      exact (by injection h with h; exact h ▸ atom_count_plain_err_classify _ e' hp)
    | ok pc =>
      rw [hp] at h
      simp only [Except.map, Except.bind, bind] at h
      exact ih _ _ h

/-- The errors `atom_count_in_formula` can raise: only the empty-formula
`IndexError` and the suspicious-formula `ValueError`, never the
invalid-equation error. -/
theorem atom_count_err_classify (f : String) (e : PyErr)
    (h : atom_count_in_formula f = Except.error e) :
    e = PyErr.indexError ∨ ∃ a b, e = PyErr.suspicious a b := by
  unfold atom_count_in_formula at h
  cases hv : validate_formula f with
  | error e' =>
    rw [hv] at h
    exact Except.error.inj h ▸ validate_err_classify f e' hv
  | ok u =>
    rw [hv] at h
    simp only [Except.bind] at h
    split at h
    · exact foldl_atom_err_classify _ _ _ h
    · exact absurd h (by simp)

/-- Counting atoms for every species of an equation can only raise the
errors of `atom_count_in_formula`. -/
theorem mapM_atom_err_classify (species : List String) (e : PyErr)
    (h : species.mapM atom_count_in_formula = Except.error e) :
    e = PyErr.indexError ∨ ∃ a b, e = PyErr.suspicious a b := by
  induction species generalizing e with
  | nil =>
    rw [List.mapM_nil] at h
    exact absurd h (by simp [pure, Except.pure])
  | cons sp sps ih =>
    rw [List.mapM_cons] at h
    cases hsp : atom_count_in_formula sp with
    | error e' =>
      rw [hsp] at h
      simp only [Except.bind, bind] at h
      exact Except.error.inj h ▸ atom_count_err_classify _ e' hsp
    | ok pc =>
      rw [hsp] at h
      simp only [Except.bind, bind] at h
      cases hm : sps.mapM atom_count_in_formula with
      | error e' =>
        rw [hm] at h
        simp only [Except.bind, bind] at h
        exact ih e (Except.error.inj h ▸ hm)
      | ok pcs =>
        rw [hm] at h
        exact absurd h (by simp [Except.bind, bind, pure, Except.pure])

/-- The element scan finds an element whenever the formula contains an
uppercase letter, for any sufficient fuel. -/
theorem scanElementsF_ne_nil :
    ∀ (fuel : Nat) (l : List Char), l.length ≤ fuel →
      (∃ c ∈ l, c.isUpper = true) → scanElementsF fuel l ≠ [] := by
  intro fuel
  induction fuel with
  | zero =>
    intro l hl h
    cases l with
    | nil => obtain ⟨c, hc, _⟩ := h; exact absurd hc (by simp)
    | cons c rest => simp at hl
  | succ n ih =>
    intro l hl h
    cases l with
    | nil => obtain ⟨c, hc, _⟩ := h; exact absurd hc (by simp)
    | cons c rest =>
      by_cases hu : c.isUpper = true
      · simp [scanElementsF, hu]
      · obtain ⟨d, hd, hdu⟩ := h
        have hdr : d ∈ rest := by
          rcases List.mem_cons.mp hd with h1 | h1
          · exact absurd (h1 ▸ hdu) hu
          · exact h1
        simp only [scanElementsF, hu, if_false, Bool.false_eq_true]
        exact ih rest (by simp at hl; omega) ⟨d, hdr, hdu⟩

/-- The element scan of `validate_formula` finds an element whenever the
formula contains an uppercase letter. -/
theorem scan_ne_nil (l : List Char) (h : ∃ c ∈ l, c.isUpper = true) :
    scanElements l ≠ [] :=
  scanElementsF_ne_nil l.length l (Nat.le_refl _) h

/-- Replacing every `0` by `O` removes every `0`. -/
theorem zero_not_mem_map0 (l : List Char) :
    '0' ∉ l.map (fun c => if c = '0' then 'O' else c) := by
  intro hm
  obtain ⟨a, ha, hfa⟩ := List.mem_map.mp hm
  by_cases h : a = '0' <;> simp [h] at hfa

/-- Replacing every `1` by `I` introduces no `0`. -/
theorem zero_not_mem_map1 (l : List Char) (h : '0' ∉ l) :
    '0' ∉ l.map (fun c => if c = '1' then 'I' else c) := by
  intro hm
  obtain ⟨a, ha, hfa⟩ := List.mem_map.mp hm
  by_cases h1 : a = '1'
  · simp [h1] at hfa
  · simp [h1] at hfa
    exact h (hfa ▸ ha)

/-- Replacing every `1` by `I` removes every `1`. -/
theorem one_not_mem_map1 (l : List Char) :
    '1' ∉ l.map (fun c => if c = '1' then 'I' else c) := by
  intro hm
  obtain ⟨a, ha, hfa⟩ := List.mem_map.mp hm
  by_cases h : a = '1' <;> simp [h] at hfa

/-- The suggested correction differs from the formula whenever the formula
contains a `0` or a `1`. -/
theorem suggested_ne (l : List Char) (h : '0' ∈ l ∨ '1' ∈ l) :
    suggestedOf l ≠ l := by
  intro heq
  rcases h with h0 | h1
  · have hnm : '0' ∉ suggestedOf l := by
      unfold suggestedOf
      by_cases h1 : '1' ∈ l
      · rw [if_pos h1, if_pos h0]
        exact zero_not_mem_map1 _ (zero_not_mem_map0 l)
      · rw [if_neg h1, if_pos h0]
        exact zero_not_mem_map0 l
    exact hnm (by rw [heq]; exact h0)
  · have hnm : '1' ∉ suggestedOf l := by
      unfold suggestedOf
      rw [if_pos h1]
      exact one_not_mem_map1 _
    exact hnm (by rw [heq]; exact h1)

/-- Mapping a success continuation over an `Except` whose only possible
errors are formula-level can never produce the invalid-equation error. -/
theorem map_no_invalid {β : Type} (x : Except PyErr (List Dict)) (g : List Dict → β)
    (h : Except.map g x = Except.error PyErr.invalidEquation)
    (hc : ∀ e', x = Except.error e' →
      e' = PyErr.indexError ∨ ∃ a b, e' = PyErr.suspicious a b) : False := by
  cases x with
  | error e' =>
    have he : e' = PyErr.invalidEquation := by
      simp only [Except.map] at h
      exact Except.error.inj h
    rcases hc e' rfl with h1 | ⟨a, b, h2⟩
    · exact absurd (he ▸ h1) (by simp)
    · exact absurd (he ▸ h2) (by simp)
  | ok v => exact absurd h (by simp [Except.map])

/-- If `q` times a natural number is an integer, the denominator of `q`
divides that number. -/
theorem den_dvd_of_mul_natCast (q : ℚ) (n : ℕ) (h : (q * (n : ℚ)).den = 1) :
    q.den ∣ n := by
  have hq : (((q * (n : ℚ)).num : ℚ)) = q * (n : ℚ) := (Rat.den_eq_one_iff _).mp h
  have hden0 : ((q.den : ℚ)) ≠ 0 := Nat.cast_ne_zero.mpr q.den_nz
  have hmulden : q * (q.den : ℚ) = (q.num : ℚ) := by
    have hnd := Rat.num_div_den q
    rw [div_eq_iff hden0] at hnd
    exact hnd.symm
  have h2 : ((q * (n : ℚ)).num : ℚ) * (q.den : ℚ) = (q.num : ℚ) * (n : ℚ) := by
    rw [hq]
    calc q * (n : ℚ) * (q.den : ℚ) = q * (q.den : ℚ) * (n : ℚ) := by ring
    _ = (q.num : ℚ) * (n : ℚ) := by rw [hmulden]
  have h3 : (q * (n : ℚ)).num * (q.den : ℤ) = q.num * (n : ℤ) := by exact_mod_cast h2
  have h4 : (q.den : ℤ) ∣ q.num * (n : ℤ) := ⟨(q * (n : ℚ)).num, by linarith⟩
  have h5 : q.den ∣ q.num.natAbs * n := by
    have h6 := Int.natAbs_dvd_natAbs.mpr h4
    simpa [Int.natAbs_mul, Int.natAbs_ofNat] using h6
  exact Nat.Coprime.dvd_of_dvd_mul_left (Nat.Coprime.symm q.reduced) h5

/-- The LCM of the denominators of a vector is positive. -/
theorem lcmDens_pos (v : List ℚ) : 0 < lcmDens v := by
  unfold lcmDens
  induction v with
  | nil => simp [List.foldr]
  | cons q w ih =>
    simp only [List.map_cons, List.foldr_cons]
    exact Nat.pos_of_ne_zero (Nat.lcm_ne_zero q.den_nz (Nat.pos_iff_ne_zero.mp ih))

/-- Every denominator of a vector divides the LCM of its denominators. -/
theorem den_dvd_lcmDens (v : List ℚ) (q : ℚ) (hq : q ∈ v) : q.den ∣ lcmDens v := by
  unfold lcmDens
  induction v with
  | nil => exact absurd hq (by simp)
  | cons w ws ih =>
    simp only [List.map_cons, List.foldr_cons]
    rcases List.mem_cons.mp hq with h1 | h1
    · exact h1 ▸ Nat.dvd_lcm_left _ _
    · exact Dvd.dvd.trans (ih h1) (Nat.dvd_lcm_right _ _)

/-- The LCM of the denominators divides any common multiple of them. -/
theorem lcmDens_dvd (v : List ℚ) (m : ℕ) (h : ∀ q ∈ v, q.den ∣ m) :
    lcmDens v ∣ m := by
  unfold lcmDens
  induction v with
  | nil => simp [List.foldr]
  | cons w ws ih =>
    simp only [List.map_cons, List.foldr_cons]
    exact Nat.lcm_dvd (h w (by simp)) (ih (fun q hq => h q (by simp [hq])))

/-- The gcd fold divides the absolute value of every list member. -/
theorem gcdList_dvd (c : List Int) (x : Int) (hx : x ∈ c) : gcdList c ∣ x.natAbs := by
  unfold gcdList
  induction c with
  | nil => exact absurd hx (by simp)
  | cons a as ih =>
    simp only [List.foldr_cons]
    rcases List.mem_cons.mp hx with h1 | h1
    · exact h1 ▸ Nat.gcd_dvd_left _ _
    · exact Dvd.dvd.trans (Nat.gcd_dvd_right _ _) (ih h1)

/-- Core scaling argument: when a coefficient list comes from scaling a
rational vector by the LCM of its denominators (up to signs), and the
scaled vector contains an entry whose absolute value is that LCM, the gcd
of the coefficients is 1: a common divisor `d` of all coefficients would
make every denominator divide `LCM / d`, forcing `d = 1` by minimality of
the LCM. -/
theorem gcd_one_core (v : List ℚ) (c : List Int)
    (hLmem : ∃ x ∈ c, x.natAbs = lcmDens v)
    (hcov : ∀ w ∈ v, (w * (lcmDens v : ℚ)).den = 1 ∧
      ∃ x ∈ c, x.natAbs = ((w * (lcmDens v : ℚ)).num).natAbs) :
    gcdList c = 1 := by
  have hLpos : 0 < lcmDens v := lcmDens_pos v
  obtain ⟨x0, hx0c, hx0⟩ := hLmem
  have hdL : gcdList c ∣ lcmDens v := hx0 ▸ gcdList_dvd c x0 hx0c
  have hdne : gcdList c ≠ 0 := by
    intro h0
    rw [h0] at hdL
    have := Nat.eq_zero_of_zero_dvd hdL
    omega
  have hdens : ∀ w ∈ v, w.den ∣ lcmDens v / gcdList c := by
    intro w hw
    obtain ⟨hden1, x, hxc, hxabs⟩ := hcov w hw
    have hdx : gcdList c ∣ ((w * (lcmDens v : ℚ)).num).natAbs :=
      hxabs ▸ gcdList_dvd c x hxc
    have hdxz : ((gcdList c : ℤ)) ∣ (w * (lcmDens v : ℚ)).num := by
      apply Int.natAbs_dvd_natAbs.mp
      simpa [Int.natAbs_ofNat] using hdx
    obtain ⟨k, hk⟩ := hdxz
    apply den_dvd_of_mul_natCast
    have hdq0 : ((gcdList c : ℚ)) ≠ 0 := Nat.cast_ne_zero.mpr hdne
    have hcast : ((lcmDens v / gcdList c : ℕ) : ℚ) = (lcmDens v : ℚ) / (gcdList c : ℚ) :=
      Nat.cast_div hdL hdq0
    have hwL : w * (lcmDens v : ℚ) = (((gcdList c : ℤ) * k : ℤ) : ℚ) := by
      rw [← hk]
      exact ((Rat.den_eq_one_iff _).mp hden1).symm
    have hcomp : w * ((lcmDens v / gcdList c : ℕ) : ℚ) = ((k : ℤ) : ℚ) := by
      rw [hcast]
      calc w * ((lcmDens v : ℚ) / (gcdList c : ℚ))
          = (w * (lcmDens v : ℚ)) / (gcdList c : ℚ) := by ring
        _ = (((gcdList c : ℤ) * k : ℤ) : ℚ) / (gcdList c : ℚ) := by rw [hwL]
        _ = ((k : ℤ) : ℚ) := by push_cast; field_simp
    rw [hcomp, Rat.den_intCast]
  have hLdvd : lcmDens v ∣ lcmDens v / gcdList c := lcmDens_dvd v _ hdens
  have hdivd : lcmDens v / gcdList c ∣ lcmDens v := Nat.div_dvd_of_dvd hdL
  have heq : lcmDens v / gcdList c = lcmDens v := Nat.dvd_antisymm hdivd hLdvd
  rcases Nat.div_eq_self.mp heq with h0 | h1
  · omega
  · exact h1

/-- Every vector produced by `nullspaceQ` contains the entry 1 (at its
free column). -/
theorem one_mem_nullspaceQ (m : List (List ℚ)) (vec : List ℚ)
    (h : vec ∈ nullspaceQ m) : (1 : ℚ) ∈ vec := by
  unfold nullspaceQ at h
  obtain ⟨f, hf, hvec⟩ := List.mem_map.mp h
  have hfr : f ∈ List.range (matCols m) := (List.mem_filter.mp hf).1
  subst hvec
  unfold nullBasisVec
  exact List.mem_map.mpr ⟨f, hfr, by simp⟩

/-- Every vector produced by `nullspaceOf` contains the entry 1. -/
theorem one_mem_nullspace (mInt : List (List Int)) (vec : List ℚ)
    (h : vec ∈ nullspaceOf mInt) : (1 : ℚ) ∈ vec :=
  one_mem_nullspaceQ _ vec h

/-- The denominator of the absolute value of a rational. -/
theorem den_abs (q : ℚ) : |q|.den = q.den := by
  rcases abs_choice q with h | h <;> simp [h]

/-- The absolute numerator of the absolute value of a rational. -/
theorem natAbs_num_abs (q : ℚ) : (|q|).num.natAbs = q.num.natAbs := by
  rcases abs_choice q with h | h <;> simp [h]

/-- When `normalize_coeffs` succeeds on a vector containing the entry 1,
the gcd of the returned coefficients is 1. -/
theorem normalize_gcd_one (v : List ℚ) (c : List Int)
    (h1 : (1 : ℚ) ∈ v) (h : normalize_coeffs v = some c) : gcdList c = 1 := by
  unfold normalize_coeffs at h
  by_cases hall : (raw_coeffs v).all isPosInt = true
  · rw [if_pos hall] at h
    have hc : c = (raw_coeffs v).map Rat.num := (Option.some.inj h).symm
    refine gcd_one_core v c ?_ ?_
    · refine ⟨((1 : ℚ) * (lcmDens v : ℚ)).num, ?_, ?_⟩
      · rw [hc]
        exact List.mem_map.mpr ⟨_, List.mem_map.mpr ⟨1, h1, rfl⟩, rfl⟩
      · simp [Rat.num_natCast]
    · intro w hw
      have hmem : w * (lcmDens v : ℚ) ∈ raw_coeffs v := List.mem_map.mpr ⟨w, hw, rfl⟩
      have hpos := List.all_eq_true.mp hall _ hmem
      simp only [isPosInt, Bool.and_eq_true, beq_iff_eq, decide_eq_true_eq] at hpos
      exact ⟨hpos.1, ⟨(w * (lcmDens v : ℚ)).num, hc ▸ List.mem_map.mpr ⟨_, hmem, rfl⟩, rfl⟩⟩
  · rw [if_neg hall] at h
    by_cases hany : (raw_coeffs v).any (fun q => decide (q.num < 0)) = true
    · rw [if_pos hany] at h
      by_cases habs : ((raw_coeffs v).map (fun q => |q|)).all isPosInt = true
      · rw [if_pos habs] at h
        have hc : c = ((raw_coeffs v).map (fun q => |q|)).map Rat.num := (Option.some.inj h).symm
        refine gcd_one_core v c ?_ ?_
        · refine ⟨(|(1 : ℚ) * (lcmDens v : ℚ)|).num, ?_, ?_⟩
          · rw [hc]
            exact List.mem_map.mpr
              ⟨_, List.mem_map.mpr ⟨_, List.mem_map.mpr ⟨1, h1, rfl⟩, rfl⟩, rfl⟩
          · rw [natAbs_num_abs]
            simp [Rat.num_natCast]
        · intro w hw
          have hmem : w * (lcmDens v : ℚ) ∈ raw_coeffs v := List.mem_map.mpr ⟨w, hw, rfl⟩
          have hmem2 : |w * (lcmDens v : ℚ)| ∈ (raw_coeffs v).map (fun q => |q|) :=
            List.mem_map.mpr ⟨_, hmem, rfl⟩
          have hpos := List.all_eq_true.mp habs _ hmem2
          simp only [isPosInt, Bool.and_eq_true, beq_iff_eq, decide_eq_true_eq] at hpos
          refine ⟨?_, ⟨(|w * (lcmDens v : ℚ)|).num, hc ▸ List.mem_map.mpr ⟨_, hmem2, rfl⟩, ?_⟩⟩
          · rw [← den_abs]
            exact hpos.1
          · rw [natAbs_num_abs]
      · rw [if_neg habs] at h
        exact absurd h (by simp)
    · rw [if_neg hany] at h
      exact absurd h (by simp)

/-- C1: the spec demands that a mixed-sign null-space vector (here
`[2, -2, 1]`, from the matrix of `H2O + H2 -> O2`) makes the balancer
report failure without taking entry-wise absolute values; the code instead
takes absolute values of the mixed-sign vector and returns `[2, 2, 1]` as
coefficients. -/
theorem c1_mixed_sign_abs_bug :
    nullspaceOf [[2, 2, 0], [1, 0, -2]] = [[2, -2, 1]] ∧
    normalize_coeffs [2, -2, 1] = some [2, 2, 1] ∧
    get_stoic "H2O + H2 -> O2" = some [2, 2, 1] := by
  with_unfolding_all decide

/-- C2 counterexample: `countAtoms "CuSO4·5H2O"` maps `O` to 5, not to the
9 the claim states (the leading hydrate multiplier 5 is skipped, not
applied). -/
theorem c2_hydrate_counterexample :
    (atom_count_in_formula "CuSO4·5H2O").map (fun d => assocGetD d "O" 0) =
      Except.ok 5 ∧ (5 : Nat) ≠ 9 := by
  decide

/-- C2 amended: `countAtoms` returns the stated mappings on the first
three reference inputs, and on `CuSO4·5H2O` it returns
`{Cu: 1, S: 1, O: 5, H: 2}`: the hydrate part's leading multiplier 5 is a
bare digit run that the scanner silently skips, so the `H2O` counts are
added exactly once. -/
theorem c2_amended_counts :
    atom_count_in_formula "H2O" = Except.ok [("H", 2), ("O", 1)] ∧
    atom_count_in_formula "Mg(OH)2" = Except.ok [("Mg", 1), ("O", 2), ("H", 2)] ∧
    atom_count_in_formula "Fe(NO3)3" = Except.ok [("Fe", 1), ("N", 3), ("O", 9)] ∧
    atom_count_in_formula "CuSO4·5H2O" =
      Except.ok [("Cu", 1), ("S", 1), ("O", 5), ("H", 2)] := by
  decide

/-- C3 counterexample: the top-level balancer returns the same outcome
`None` for a malformed equation (`H2 O2 H2O`, no separator: the parser
raises the invalid-syntax error) and for a well-formed but unbalanceable
equation (`H2 -> O2`, which parses fine but has an empty null space), so a
caller receiving the result cannot tell the two apart. -/
theorem c3_indistinguishable_counterexample :
    get_stoic "H2 O2 H2O" = get_stoic "H2 -> O2" ∧
    parse_equation "H2 O2 H2O" = Except.error PyErr.invalidEquation ∧
    isOkE (parse_pipeline "H2 -> O2") = true := by
  with_unfolding_all decide

/-- C3 amended: `get_stoic` collapses every outcome other than success to
the single value `None`: both the malformed input `H2 O2 H2O` (parse
error, swallowed by the blanket exception handler) and the well-formed
unbalanceable input `H2 -> O2` (empty null space) yield `None`, so the two
failure kinds are not distinguishable from the returned value. -/
theorem c3_amended_none_for_both :
    get_stoic "H2 O2 H2O" = none ∧ get_stoic "H2 -> O2" = none := by
  with_unfolding_all decide

/-- C4 counterexample: on the unmatched-parenthesis formula `(H2O` the
claim demands a malformed-formula failure, but `countAtoms` silently
returns the count map `{H: 2, O: 1}`. -/
theorem c4_unmatched_paren_counterexample :
    atom_count_in_formula "(H2O" = Except.ok [("H", 2), ("O", 1)] := by
  decide

/-- C4 amended: `countAtoms` fails only on the empty formula (an index
error from the pre-validation reading `formula[-1]`) and on
suspicious digit-for-letter formulas; unmatched parentheses (`H2O)`) and
bare multipliers (`5H2O`) are silently accepted, the stray `)` merging
nowhere and bare digit runs being skipped. -/
theorem c4_amended_failure_modes :
    atom_count_in_formula "" = Except.error PyErr.indexError ∧
    atom_count_in_formula "H2O)" = Except.ok [("H", 2), ("O", 1)] ∧
    atom_count_in_formula "5H2O" = Except.ok [("H", 2), ("O", 1)] ∧
    atom_count_in_formula "H20" = Except.error (PyErr.suspicious "H20" "H2O") ∧
    ∀ f e, atom_count_in_formula f = Except.error e →
      e = PyErr.indexError ∨ ∃ a b, e = PyErr.suspicious a b := by
  refine ⟨by decide, by decide, by decide, by decide, atom_count_err_classify⟩

/-- Witness for the amended C4 at the concrete inputs of its hypotheses. -/
theorem c4_amended_failure_modes_witness :
    PyErr.indexError = PyErr.indexError ∨
      ∃ a b, PyErr.indexError = PyErr.suspicious a b :=
  c4_amended_failure_modes.2.2.2.2 "" PyErr.indexError (by decide)

/-- C5: the spec demands that every successful balance conserves every
element, but on `H2O + H2 -> O2` the code succeeds with `[2, 2, 1]`
(absolute values of the mixed-sign null-space vector), and the hydrogen
row `[2, 2, 0]` of the matrix gives `2*2 + 2*2 + 0*1 = 8 ≠ 0`. -/
theorem c5_conservation_violation :
    get_stoic "H2O + H2 -> O2" = some [2, 2, 1] ∧
    (parse_pipeline "H2O + H2 -> O2").map MatrixData.matrix =
      Except.ok [[2, 2, 0], [1, 0, -2]] ∧
    conservesAll [[2, 2, 0], [1, 0, -2]] [2, 2, 1] = false := by
  with_unfolding_all decide

/-- C6: whenever the balancer returns coefficients, their gcd is 1: the
first null-space basis vector carries a 1 at its free column, so after
scaling by the LCM of the denominators no common factor greater than 1
can divide every coefficient. -/
theorem c6_gcd_one (eq : String) (c : List Int) (h : get_stoic eq = some c) :
    gcdList c = 1 := by
  unfold get_stoic at h
  cases hp : parse_pipeline eq with
  | error e => rw [hp] at h; simp at h
  | ok md =>
    rw [hp] at h
    dsimp only at h
    cases hn : nullspaceOf md.matrix with
    | nil => rw [hn] at h; simp at h
    | cons vec rest =>
      rw [hn] at h
      exact normalize_gcd_one vec c
        (one_mem_nullspace md.matrix vec (hn ▸ List.mem_cons_self vec rest)) h

/-- Witness for C6 at a concrete balanced equation. -/
theorem c6_gcd_one_witness :
    get_stoic "H2 + O2 -> H2O" = some [2, 1, 2] ∧ gcdList [2, 1, 2] = 1 := by
  have h : get_stoic "H2 + O2 -> H2O" = some [2, 1, 2] := by
    with_unfolding_all decide
  exact ⟨h, c6_gcd_one "H2 + O2 -> H2O" [2, 1, 2] h⟩

/-- C7 counterexample: on `-> H2O` there is exactly one separator and the
reactant side is the single empty species, and by the claim the parser
should raise the invalid-equation-syntax error; instead the empty species
reaches the formula validator, which raises the index error. -/
theorem c7_zero_species_counterexample :
    parse_equation "-> H2O" = Except.error PyErr.indexError ∧
    PyErr.indexError ≠ PyErr.invalidEquation := by
  decide

/-- C7 amended: `parseEquation` raises the invalid-equation-syntax error
exactly when the separator split yields a number of parts different from
two (zero separators, or more than one); an empty side instead surfaces as
a formula-level error for its empty species, and a side with a malformed
species can fail with a formula-level error even when the separator count
is right. -/
theorem c7_amended_syntax_iff (eq : String) :
    parse_equation eq = Except.error PyErr.invalidEquation ↔
      (reSplitSep (pyStrip eq.toList)).length ≠ 2 := by
  constructor
  · intro h hl
    unfold parse_equation at h
    rw [if_pos hl] at h
    exact map_no_invalid _ _ h (fun e' he' => mapM_atom_err_classify _ e' he')
  · intro hl
    unfold parse_equation
    rw [if_neg hl]

/-- Witness for the amended C7 at a concrete separator-free input. -/
theorem c7_amended_syntax_iff_witness :
    parse_equation "H2 O2 H2O" = Except.error PyErr.invalidEquation :=
  (c7_amended_syntax_iff "H2 O2 H2O").mpr (by decide)

/-- C8: balancing `H2 + O2 -> H2O` yields the coefficients `[2, 1, 2]`
in the species order `H2, O2, H2O`. -/
theorem c8_balance_h2_o2 :
    get_stoic "H2 + O2 -> H2O" = some [2, 1, 2] ∧
    (parse_equation "H2 + O2 -> H2O").map ParsedEq.chem_species =
      Except.ok ["H2", "O2", "H2O"] := by
  with_unfolding_all decide

/-- C9: for every input string `get_stoic` returns normally with either a
coefficient list or `None`; every error raised during parsing or matrix
construction is caught and becomes `None`. -/
theorem c9_total_catches (eq : String) :
    (get_stoic eq = none ∨ ∃ c, get_stoic eq = some c) ∧
    ∀ e, parse_pipeline eq = Except.error e → get_stoic eq = none := by
  constructor
  · cases h : get_stoic eq with
    | none => exact Or.inl rfl
    | some c => exact Or.inr ⟨c, rfl⟩
  · intro e he
    unfold get_stoic
    rw [he]

/-- Witness for C9 at a concrete erroring input. -/
theorem c9_total_catches_witness :
    parse_pipeline "H2 O2 H2O" = Except.error PyErr.invalidEquation ∧
    get_stoic "H2 O2 H2O" = none :=
  ⟨by decide, (c9_total_catches "H2 O2 H2O").2 PyErr.invalidEquation (by decide)⟩

/-- C10 counterexample: `ab02` ends in a digit, has letters before the
last character and contains a `0`, so by the claim the suspicious-formula
error should be raised; but the element scan only reacts to uppercase
letters, so `countAtoms` silently returns the empty count map. -/
theorem c10_lowercase_counterexample :
    ('a' ∈ "ab02".toList ∧ ('a').isAlpha = true) ∧
    "ab02".toList.getLast? = some '2' ∧ ('2').isDigit = true ∧
    '0' ∈ "ab02".toList ∧
    atom_count_in_formula "ab02" = Except.ok [] := by
  decide

/-- C10 amended: for every formula whose last character is a digit, that
contains at least one UPPERCASE letter before the last character, and that
contains a `0` or a `1` anywhere, `countAtoms` raises the
suspicious-formula error carrying the suggested correction (every `0`
replaced by `O`, then every `1` by `I`) instead of returning counts. -/
theorem c10_amended_uppercase (f : String)
    (h1 : ∃ last, f.toList.getLast? = some last ∧ last.isDigit = true)
    (h2 : ∃ c ∈ f.toList.dropLast, c.isUpper = true)
    (h3 : '0' ∈ f.toList ∨ '1' ∈ f.toList) :
    atom_count_in_formula f =
      Except.error (PyErr.suspicious f (String.mk (suggestedOf f.toList))) := by
  obtain ⟨last, hlast, hdig⟩ := h1
  obtain ⟨c, hcmem, hcup⟩ := h2
  have e1 : last.isDigit = true ∧ f.toList.dropLast.any Char.isAlpha = true :=
    ⟨hdig, List.any_eq_true.mpr ⟨c, hcmem, by simp [Char.isAlpha, hcup]⟩⟩
  have e2 : scanElements f.toList ≠ [] ∧ last.isDigit = true :=
    ⟨scan_ne_nil _ ⟨c, List.dropLast_subset f.toList hcmem, hcup⟩, hdig⟩
  have e3 : suggestedOf f.toList ≠ f.toList := suggested_ne _ h3
  have hval : validate_formula f =
      Except.error (PyErr.suspicious f (String.mk (suggestedOf f.toList))) := by
    simp only [validate_formula, hlast, if_pos e1, if_pos e2, if_pos e3]
  unfold atom_count_in_formula
  rw [hval]
  rfl

/-- Witness for the amended C10 at the concrete formula `C10H22`. -/
theorem c10_amended_uppercase_witness :
    atom_count_in_formula "C10H22" =
      Except.error (PyErr.suspicious "C10H22" "CIOH22") := by
  rw [c10_amended_uppercase "C10H22" ⟨'2', by decide, by decide⟩
    ⟨'C', by decide, by decide⟩ (Or.inl (by decide))]
  decide

end ChemBalancer
